import Mathlib

/-!
Verification of the Grid Engine and Trade Ledger of the XRP grid trading bot
(`src/xrp_trading_bot.py`).

The ledger and margin-matching code is embedded over exact rationals (`ℚ`);
Python dict records become the structure `Trade`, with absent optional keys
modelled by the default values the Python code reads back (`dict.get` with a
default, so a missing numeric key is `0` and a missing nullable key is `none`).
The grid generator uses the fractional power `t ** 1.5`, so it is embedded over
the reals, with `t ** 1.5` rendered as `t * Real.sqrt t` (equal for `t ≥ 0`,
and the generator only raises non-negative numbers to this power).
-/

/-- A trade record, mirroring the dict built in `place_order_direct` and
updated by `check_closed_orders` / `get_open_orders` / `cancel_order`.
The `type` field is the Python `'type'` key (`"buy"` or `"sell"`), `status`
ranges over `"pending"/"open"/"filled"/"canceled"/"failed"`. -/
structure Trade where
  id : String
  pair : String
  type : String
  price : ℚ
  volume : ℚ
  status : String
  created_at : ℚ
  updated_at : ℚ
  order_id : Option String
  filled_volume : ℚ
  cost : ℚ
  fee : ℚ
  actual_price : Option ℚ
  filled_at : Option ℚ
  error : Option String
deriving DecidableEq, Repr

/-- The value a missing trade yields when Python code would fault on it; its
`type` and `status` are the empty string, so it is never a buy or a sell. -/
def defaultTrade : Trade :=
  { id := "", pair := "", type := "", price := 0, volume := 0, status := ""
    created_at := 0, updated_at := 0, order_id := none, filled_volume := 0
    cost := 0, fee := 0, actual_price := none, filled_at := none, error := none }

/-- A margin record, mirroring the `margin_data` dict built in
`TradeDatabase.calculate_margins`. -/
structure MarginRec where
  buy_trade_id : String
  sell_trade_id : String
  buy_price : ℚ
  sell_price : ℚ
  volume : ℚ
  margin : ℚ
  margin_percentage : ℚ
  timestamp : ℚ
deriving DecidableEq, Repr

/-- A partial update (the `updates` dict passed to
`TradeDatabase.update_trade`); `none` means the key is absent from the dict.
The callers in the source never patch `id`, `pair` or `type`, so those keys
are not modelled. -/
structure TradePatch where
  price : Option ℚ := none
  volume : Option ℚ := none
  status : Option String := none
  updated_at : Option ℚ := none
  order_id : Option String := none
  filled_volume : Option ℚ := none
  cost : Option ℚ := none
  fee : Option ℚ := none
  actual_price : Option ℚ := none
  filled_at : Option ℚ := none
  error : Option String := none
deriving DecidableEq, Repr

/-- Python `self.trades[i].update(updates)`: keys present in the patch
overwrite the record's fields. -/
def applyPatch (t : Trade) (p : TradePatch) : Trade :=
  { t with
    price := p.price.getD t.price
    volume := p.volume.getD t.volume
    status := p.status.getD t.status
    updated_at := p.updated_at.getD t.updated_at
    order_id := p.order_id.elim t.order_id some
    filled_volume := p.filled_volume.getD t.filled_volume
    cost := p.cost.getD t.cost
    fee := p.fee.getD t.fee
    actual_price := p.actual_price.elim t.actual_price some
    filled_at := p.filled_at.elim t.filled_at some
    error := p.error.elim t.error some }

/-- `TradeDatabase.add_trade`: unconditionally appends the record
(the file save is outside the data model). -/
def add_trade (trades : List Trade) (t : Trade) : List Trade := trades ++ [t]

/-- `TradeDatabase.update_trade`: merges the patch into the first record whose
`id` matches and returns `true`; returns `false` (ledger unchanged) when no
record matches. -/
def update_trade : List Trade → String → TradePatch → List Trade × Bool
  | [], _, _ => ([], false)
  | t :: rest, tid, p =>
    if t.id = tid then (applyPatch t p :: rest, true)
    else
      let r := update_trade rest tid p
      (t :: r.1, r.2)

/-- `trade.get('type') == 'buy' and trade.get('status') == 'filled'`. -/
def isFilledBuy (t : Trade) : Bool := t.type == "buy" && t.status == "filled"

/-- `trade.get('type') == 'sell' and trade.get('status') == 'filled'`. -/
def isFilledSell (t : Trade) : Bool := t.type == "sell" && t.status == "filled"

/-- One step of building the `buy_trades` dict of `calculate_margins`:
append index `i` to the bucket of price `p`, creating the bucket at the end
(Python dict insertion order) when the price is new. Buckets hold positions
into the trade list, mirroring Python's object references. -/
def bucketInsert : List (ℚ × List Nat) → ℚ → Nat → List (ℚ × List Nat)
  | [], p, i => [(p, [i])]
  | (q, l) :: rest, p, i =>
    if q = p then (q, l ++ [i]) :: rest else (q, l) :: bucketInsert rest p i

/-- The `buy_trades` dict of `calculate_margins`: every filled buy record,
indexed by price, in ledger order. -/
def buildBuckets (trades : List Trade) : List (ℚ × List Nat) :=
  (trades.enum.filter fun it => isFilledBuy it.2).foldl
    (fun bs it => bucketInsert bs (it.2.price) it.1) []

/-- Insert one bucket into a price-sorted bucket list. -/
def insertBucket (b : ℚ × List Nat) : List (ℚ × List Nat) → List (ℚ × List Nat)
  | [] => [b]
  | c :: rest => if b.1 ≤ c.1 then b :: c :: rest else c :: insertBucket b rest

/-- `sorted(buy_trades.keys())`: the bucket list in ascending price order
(prices are pairwise distinct by construction, so sorting the association
list by key is the same as iterating the sorted key list and looking each
key up in the dict). -/
def sortBuckets : List (ℚ × List Nat) → List (ℚ × List Nat)
  | [] => []
  | b :: rest => insertBucket b (sortBuckets rest)

/-- The `margin_data` dict: `margin = sell_revenue - buy_cost` and
`margin_percentage = (margin / buy_cost) * 100` with
`buy_cost = volume * buy_price`, `sell_revenue = volume * sell_price`. -/
def mkMarginRec (sellId : String) (sellPrice now p : ℚ) (bt : Trade)
    (volume : ℚ) : MarginRec :=
  { buy_trade_id := bt.id, sell_trade_id := sellId, buy_price := p
    sell_price := sellPrice, volume := volume
    margin := volume * sellPrice - volume * p
    margin_percentage := (volume * sellPrice - volume * p) / (volume * p) * 100
    timestamp := now }

/-- The inner loop of `calculate_margins` for one filled sell record:
`for buy_price in sorted(buy_trades.keys())`.  At each price strictly below
the sell price whose bucket is non-empty, the head buy of the bucket is
consumed by `min(buy_volume, sell_volume)`; a partially consumed buy has its
`volume` field overwritten in the trade list (Python mutates the shared dict),
a fully consumed buy is popped from the bucket; the loop breaks when the
remaining sell volume reaches zero.  Note the loop advances to the next
price after consuming a single buy, even when the same bucket still holds
further buys.  Returns the updated buckets, the updated trade list, the
emitted margin records and the remaining sell volume. -/
def procSellAux (sellId : String) (sellPrice now : ℚ) :
    List (ℚ × List Nat) → List Trade → ℚ →
    List (ℚ × List Nat) × List Trade × List MarginRec × ℚ
  | [], trades, sv => ([], trades, [], sv)
  | (p, []) :: rest, trades, sv =>
    let r := procSellAux sellId sellPrice now rest trades sv
    ((p, []) :: r.1, r.2)
  | (p, i0 :: tl) :: rest, trades, sv =>
    if p < sellPrice then
      let bt := trades.getD i0 defaultTrade
      let volume := min bt.volume sv
      let mrec := mkMarginRec sellId sellPrice now p bt volume
      let trades1 :=
        if bt.volume - volume > 0 then
          trades.set i0 { bt with volume := bt.volume - volume }
        else trades
      let idxs1 := if bt.volume - volume > 0 then i0 :: tl else tl
      if sv - volume ≤ 0 then ((p, idxs1) :: rest, trades1, [mrec], sv - volume)
      else
        let r := procSellAux sellId sellPrice now rest trades1 (sv - volume)
        ((p, idxs1) :: r.1, r.2.1, mrec :: r.2.2.1, r.2.2.2)
    else
      let r := procSellAux sellId sellPrice now rest trades sv
      ((p, i0 :: tl) :: r.1, r.2)

/-- The outer loop of `calculate_margins`: scan the trade list in order and
run the inner matching loop for every filled sell record.  Buckets and the
(buy-volume-mutated) trade list persist across sells. -/
def calcMarginsLoop (now : ℚ) :
    List Nat → List Trade → List (ℚ × List Nat) →
    List Trade × List (ℚ × List Nat) × List MarginRec
  | [], trades, bkts => (trades, bkts, [])
  | i :: restIdx, trades, bkts =>
    let t := trades.getD i defaultTrade
    if t.type = "sell" ∧ t.status = "filled" then
      let r := procSellAux t.id t.price now bkts trades t.volume
      let r2 := calcMarginsLoop now restIdx r.2.1 r.1
      (r2.1, r2.2.1, r.2.2.1 ++ r2.2.2)
    else calcMarginsLoop now restIdx trades bkts

/-- `TradeDatabase.calculate_margins`: builds the price-indexed buy buckets,
matches every filled sell against them, and returns the (possibly mutated)
trade list together with the emitted margin records.  `now` is `time.time()`,
stamped on every record. -/
def calculate_margins (now : ℚ) (trades : List Trade) :
    List Trade × List MarginRec :=
  let r := calcMarginsLoop now (List.range trades.length) trades
    (sortBuckets (buildBuckets trades))
  (r.1, r.2.2)

/-- The dict returned by `TradeDatabase.get_performance_summary`. -/
structure Summary where
  total_trades : Nat
  filled_trades : Nat
  buy_trades : Nat
  sell_trades : Nat
  total_margin : ℚ
  avg_margin_percentage : ℚ
  total_buy_volume : ℚ
  total_sell_volume : ℚ
  net_volume : ℚ
deriving DecidableEq, Repr

/-- `TradeDatabase.get_performance_summary`: first runs `calculate_margins`
(which can mutate buy-trade volumes), then aggregates over the resulting
trade list.  Returns the post-call trade list together with the summary. -/
def get_performance_summary (now : ℚ) (trades : List Trade) :
    List Trade × Summary :=
  let r := calculate_margins now trades
  let tbv := ((r.1.filter isFilledBuy).map (·.volume)).sum
  let tsv := ((r.1.filter isFilledSell).map (·.volume)).sum
  (r.1,
    { total_trades := r.1.length
      filled_trades := (r.1.filter fun t => t.status == "filled").length
      buy_trades := (r.1.filter fun t => t.type == "buy").length
      sell_trades := (r.1.filter fun t => t.type == "sell").length
      total_margin := (r.2.map (·.margin)).sum
      avg_margin_percentage :=
        if r.2.length = 0 then 0
        else (r.2.map (·.margin_percentage)).sum / (r.2.length : ℚ)
      total_buy_volume := tbv
      total_sell_volume := tsv
      net_volume := tbv - tsv })

/-- The shape of the exchange gateway's answer to `AddOrder`, as
`place_order_direct` discriminates it: a truthy `result['error']`, a
`result['result']['txid']`, a response carrying neither, or a raised
exception (transport failure). -/
inductive GwResp where
  | errorResp (e : String)
  | okTxid (txid : String)
  | okNoTxid
  | exn (e : String)
deriving DecidableEq, Repr

/-- The `trade` dict `place_order_direct` builds before calling the
gateway. -/
def newPendingTrade (pair otype : String) (price volume : ℚ) (tid : String)
    (now : ℚ) : Trade :=
  { id := tid, pair := pair, type := otype, price := price, volume := volume
    status := "pending", created_at := now, updated_at := now
    order_id := none, filled_volume := 0, cost := 0, fee := 0
    actual_price := none, filled_at := none, error := none }

/-- `place_order_direct`, restricted to its ledger effect.  On a truthy
error the record is stored as `failed` with the error text; on a response
carrying a `txid` it is stored as `open` with the order id; on a response
with neither, the record is never added to the database (the `add_trade`
call sits inside the `txid` branch); on an exception a fresh record (new
uuid `tid2`, without the order/fill keys) is stored as `failed`. -/
def place_order_direct (db : List Trade) (pair otype : String)
    (price volume : ℚ) (tid tid2 : String) (now : ℚ) (resp : GwResp) :
    List Trade :=
  let trade := newPendingTrade pair otype price volume tid now
  match resp with
  | .errorResp e => add_trade db { trade with status := "failed", error := some e }
  | .okTxid x => add_trade db { trade with status := "open", order_id := some x }
  | .okNoTxid => db
  | .exn e =>
    add_trade db
      { id := tid2, pair := pair, type := otype, price := price
        volume := volume, status := "failed", created_at := now
        updated_at := now, order_id := none, filled_volume := 0, cost := 0
        fee := 0, actual_price := none, filled_at := none, error := some e }

/-- Python `round(x, 4)` on exact reals: round to the nearest multiple of
`1/10000` (ties cannot arise in any statement below). -/
noncomputable def round4 (x : ℝ) : ℝ := (round (x * 10000) : ℤ) / 10000

/-- The non-linear distribution factor of `create_nonlinear_grid`:
`t ** exponent` with `exponent = 2.0` when dynamic sizing is enabled and
`1.5` otherwise; for `t ≥ 0`, `t ** 1.5 = t * sqrt t`. -/
noncomputable def nlFactor (dynamic_sizing : Bool) (t : ℝ) : ℝ :=
  if dynamic_sizing then t ^ 2 else t * Real.sqrt t

/-- `create_nonlinear_grid`: grid price `i` is
`lower_bound + (i / (grid_levels - 1)) ** exponent * (upper_bound - lower_bound)`,
rounded to 4 decimals.  The function first computes
`current_position = (current_price - lower_bound) / range_size`; the value is
dead, but the division raises ZeroDivisionError whenever
`range_size = upper_bound - lower_bound` is zero (coinciding rounded bounds),
so that case returns `none`.  Likewise, with exactly one grid level the loop
body's `i / (grid_levels - 1)` divides by zero on its first iteration, before
any price is produced.  `none` models the raised exception. -/
noncomputable def create_nonlinear_grid (current_price lower_bound upper_bound : ℝ)
    (grid_levels : ℕ) (dynamic_sizing : Bool) : Option (List ℝ) :=
  if upper_bound - lower_bound = 0 then none
  else if grid_levels = 1 then none
  else some ((List.range grid_levels).map fun (i : ℕ) =>
    round4 (lower_bound +
      nlFactor dynamic_sizing ((i : ℝ) / ((grid_levels : ℝ) - 1)) *
        (upper_bound - lower_bound)))

/-- `implement_grid_trading`: `lower_bound = round(current_price * (1 - grid_range_percentage / 100), 4)`. -/
noncomputable def grid_lower_bound (current_price grid_range_percentage : ℝ) : ℝ :=
  round4 (current_price * (1 - grid_range_percentage / 100))

/-- `implement_grid_trading`: `upper_bound = round(current_price * (1 + grid_range_percentage / 100), 4)`. -/
noncomputable def grid_upper_bound (current_price grid_range_percentage : ℝ) : ℝ :=
  round4 (current_price * (1 + grid_range_percentage / 100))

/-- Test fixture: a filled-style trade record with the given id, type, price,
volume and status (remaining fields as `place_order_direct` would leave them,
with `filled_volume` set to the volume as `check_closed_orders` does). -/
def exTrade (id ty : String) (pr vol : ℚ) (st : String) : Trade :=
  { id := id, pair := "XRPGBP", type := ty, price := pr, volume := vol
    status := st, created_at := 0, updated_at := 0, order_id := none
    filled_volume := vol, cost := 0, fee := 0, actual_price := none
    filled_at := none, error := none }

/-- Scenario B of the spec: a buy filled with 10 units at 0.4800 and a sell
filled with 10 units at 0.5200. -/
def scenarioB : List Trade :=
  [exTrade "b" "buy" (48/100) 10 "filled",
   exTrade "s" "sell" (52/100) 10 "filled"]

/-- The single margin record Scenario B produces. -/
def marginB : MarginRec :=
  { buy_trade_id := "b", sell_trade_id := "s", buy_price := 48/100
    sell_price := 52/100, volume := 10, margin := 4/10
    margin_percentage := 25/3, timestamp := 0 }

/-- Test fixture: two filled buys at the same price 0.48 (5 units each) and
one filled sell of 10 units at 0.52. -/
def exTwoBuysOnePrice : List Trade :=
  [exTrade "b1" "buy" (48/100) 5 "filled",
   exTrade "b2" "buy" (48/100) 5 "filled",
   exTrade "s" "sell" (52/100) 10 "filled"]

/-- Test fixture: a filled buy of 10 units at 0.48 and a filled sell of only
4 units at 0.52 — margin matching partially consumes the buy. -/
def exPartialConsumption : List Trade :=
  [exTrade "b" "buy" (48/100) 10 "filled",
   exTrade "s" "sell" (52/100) 4 "filled"]

/-- Test fixture: a filled buy of 10 units at 0.48 and a filled sell whose
`volume` (requested) is 10 but whose `filled_volume` is only 5. -/
def exPartialFillSell : List Trade :=
  [exTrade "b" "buy" (48/100) 10 "filled",
   { exTrade "s" "sell" (52/100) 10 "filled" with filled_volume := 5 }]

/-- The frame relation of the margin-matching mutation: the new record `b`
agrees with the old record `a` on every field except possibly `volume`, and
when it differs at all, `a` was a filled buy (only filled buys are ever
written back). -/
def FrameOK (a b : Trade) : Prop :=
  b = { a with volume := b.volume } ∧
    (b = a ∨ (a.type = "buy" ∧ a.status = "filled"))

/-- Bucket sanity: every index stored in a bucket points at a filled buy of
the current trade list (the default for an out-of-range index has empty
`type`, so this also forces the indices in range). -/
def BktsOK (trades : List Trade) (bkts : List (ℚ × List Nat)) : Prop :=
  ∀ pl ∈ bkts, ∀ i ∈ pl.2,
    (trades.getD i defaultTrade).type = "buy" ∧
    (trades.getD i defaultTrade).status = "filled"

theorem update_trade_not_found (trades : List Trade) (tid : String)
    (p : TradePatch) (h : ∀ t ∈ trades, t.id ≠ tid) :
    update_trade trades tid p = (trades, false) := by
  induction trades with
  | nil => rfl
  | cons t rest ih =>
    have ht : t.id ≠ tid := h t (List.mem_cons_self t rest)
    simp [update_trade, ht, ih fun u hu => h u (List.mem_cons_of_mem _ hu)]

theorem update_trade_found (pre post : List Trade) (t : Trade) (p : TradePatch)
    (h : ∀ u ∈ pre, u.id ≠ t.id) :
    update_trade (pre ++ t :: post) t.id p
      = (pre ++ applyPatch t p :: post, true) := by
  induction pre with
  | nil => simp [update_trade]
  | cons u rest ih =>
    have hu : u.id ≠ t.id := h u (List.mem_cons_self u rest)
    simp [update_trade, hu, ih fun v hv => h v (List.mem_cons_of_mem _ hv)]

theorem procSellAux_pairing_margins_ne_nil (sellId : String)
    (sellPrice now p : ℚ) (i0 : Nat) (tl : List Nat)
    (rest : List (ℚ × List Nat)) (trades : List Trade) (sv : ℚ)
    (hp : p < sellPrice) :
    (procSellAux sellId sellPrice now ((p, i0 :: tl) :: rest) trades sv).2.2.1
      ≠ [] := by
  simp only [procSellAux, if_pos hp]
  split <;> simp

theorem procSellAux_margins_nil (sellId : String) (sellPrice now : ℚ) :
    ∀ (bkts : List (ℚ × List Nat)) (trades : List Trade) (sv : ℚ),
      (procSellAux sellId sellPrice now bkts trades sv).2.2.1 = [] →
      procSellAux sellId sellPrice now bkts trades sv = (bkts, trades, [], sv)
  | [], trades, sv, _ => rfl
  | (p, []) :: rest, trades, sv, h => by
    simp only [procSellAux] at h ⊢
    rw [procSellAux_margins_nil sellId sellPrice now rest trades sv h]
  | (p, i0 :: tl) :: rest, trades, sv, h => by
    by_cases hp : p < sellPrice
    · exact absurd h
        (procSellAux_pairing_margins_ne_nil sellId sellPrice now p i0 tl rest
          trades sv hp)
    · simp only [procSellAux, if_neg hp] at h ⊢
      rw [procSellAux_margins_nil sellId sellPrice now rest trades sv h]

theorem calcMarginsLoop_margins_nil (now : ℚ) :
    ∀ (L : List Nat) (trades : List Trade) (bkts : List (ℚ × List Nat)),
      (calcMarginsLoop now L trades bkts).2.2 = [] →
      calcMarginsLoop now L trades bkts = (trades, bkts, [])
  | [], trades, bkts, _ => rfl
  | i :: restIdx, trades, bkts, h => by
    simp only [calcMarginsLoop] at h ⊢
    by_cases hs : (trades.getD i defaultTrade).type = "sell" ∧
        (trades.getD i defaultTrade).status = "filled"
    · rw [if_pos hs] at h ⊢
      rcases List.append_eq_nil.mp h with ⟨h1, h2⟩
      rw [procSellAux_margins_nil _ _ _ _ _ _ h1] at h2 ⊢
      dsimp only at h2 ⊢
      rw [calcMarginsLoop_margins_nil now restIdx trades bkts h2]
      simp
    · rw [if_neg hs] at h ⊢
      exact calcMarginsLoop_margins_nil now restIdx trades bkts h

theorem calculate_margins_nil_fst (now : ℚ) (trades : List Trade)
    (h : (calculate_margins now trades).2 = []) :
    (calculate_margins now trades).1 = trades := by
  unfold calculate_margins at h ⊢
  rw [calcMarginsLoop_margins_nil now _ _ _ h]

/-- C2 counterexample: in Scenario B's ledger the first `calculate_margins`
call fully consumes the buy, but a fully consumed buy keeps its `volume`
field (only partial consumption is written back) and the sell's volume is
never debited at all, so a second call with no new fills re-emits a
MarginRecord — margin matching is not idempotent. -/
theorem c2_counterexample :
    (calculate_margins 0 ((calculate_margins 0 scenarioB).1)).2 ≠ [] := by
  norm_num [calculate_margins, calcMarginsLoop, procSellAux, buildBuckets,
    sortBuckets, insertBucket, bucketInsert, exTrade, scenarioB, isFilledBuy,
    mkMarginRec, defaultTrade, List.range_succ, min_def]

/-- C2 (amended): `calculate_margins` does not debit fully consumed buys or
sell volumes in the store, so a repeat call generally re-emits records; the
idempotence the spec claims holds only in the degenerate case — if a call
emits no MarginRecords it also leaves the ledger unchanged, and a second
call again emits none. -/
theorem c2_margin_matching_idempotent_amended (now : ℚ) (trades : List Trade)
    (h : (calculate_margins now trades).2 = []) :
    (calculate_margins now ((calculate_margins now trades).1)).2 = [] := by
  rw [calculate_margins_nil_fst now trades h]
  exact h

/-- Witness for the amended C2 at a ledger holding one unmatched filled buy. -/
theorem c2_margin_matching_idempotent_amended_witness :
    (calculate_margins 0 [exTrade "b" "buy" (48/100) 10 "filled"]).2 = [] ∧
    (calculate_margins 0
        ((calculate_margins 0 [exTrade "b" "buy" (48/100) 10 "filled"]).1)).2
      = [] :=
  ⟨by decide, c2_margin_matching_idempotent_amended 0 _ (by decide)⟩

/-- C8 counterexample: `add_trade` performs no duplicate-id check — appending
a record whose id already exists succeeds and leaves the ledger with two
records carrying the same id, instead of failing with DuplicateIdError. -/
theorem c8_counterexample :
    add_trade [exTrade "a" "buy" 1 2 "open"] (exTrade "a" "buy" 1 2 "open")
        = [exTrade "a" "buy" 1 2 "open", exTrade "a" "buy" 1 2 "open"] ∧
    ((add_trade [exTrade "a" "buy" 1 2 "open"] (exTrade "a" "buy" 1 2 "open")).filter
        fun t => t.id == "a").length = 2 := by
  constructor
  · rfl
  · decide

/-- C8 (amended): `add_trade` appends the record unconditionally (there is no
duplicate-id check and no failure path); `update_trade` reports failure
(returns `false`, ledger unchanged) when no record has the given id, and
merges the patch into the first matching record (returning `true`)
otherwise. -/
theorem c8_ledger_append_update_amended :
    (∀ (trades : List Trade) (t : Trade), add_trade trades t = trades ++ [t]) ∧
    (∀ (trades : List Trade) (tid : String) (p : TradePatch),
      (∀ t ∈ trades, t.id ≠ tid) → update_trade trades tid p = (trades, false)) ∧
    (∀ (pre post : List Trade) (t : Trade) (p : TradePatch),
      (∀ u ∈ pre, u.id ≠ t.id) →
      update_trade (pre ++ t :: post) t.id p
        = (pre ++ applyPatch t p :: post, true)) :=
  ⟨fun _ _ => rfl, update_trade_not_found, update_trade_found⟩

/-- Witness for the amended C8: a patch merged into the record "a" sitting
behind an unrelated record "x". -/
theorem c8_ledger_append_update_amended_witness :
    (∀ u ∈ [exTrade "x" "buy" 1 1 "open"],
      u.id ≠ (exTrade "a" "sell" 2 3 "open").id) ∧
    update_trade ([exTrade "x" "buy" 1 1 "open"] ++
        exTrade "a" "sell" 2 3 "open" :: []) (exTrade "a" "sell" 2 3 "open").id
        { status := some "filled" }
      = ([exTrade "x" "buy" 1 1 "open"] ++
          applyPatch (exTrade "a" "sell" 2 3 "open") { status := some "filled" }
            :: [], true) :=
  ⟨by decide,
   c8_ledger_append_update_amended.2.2 [exTrade "x" "buy" 1 1 "open"] []
     (exTrade "a" "sell" 2 3 "open") { status := some "filled" } (by decide)⟩

/-- C9 counterexample: `update_trade` validates nothing — a patch moving a
`filled` record back to `pending` (a transition the spec forbids) succeeds
and the stored status changes, instead of failing with
InvalidTransitionError and leaving the status unchanged. -/
theorem c9_counterexample :
    (update_trade [exTrade "a" "sell" 1 2 "filled"] "a"
        { status := some "pending" }).2 = true ∧
    ((update_trade [exTrade "a" "sell" 1 2 "filled"] "a"
        { status := some "pending" }).1.getD 0 defaultTrade).status
      = "pending" := by
  decide

/-- C9 (amended): status transitions are not validated anywhere: for any
record in the ledger and any requested status whatsoever (including every
transition outside pending→{open,failed}, open→{filled,canceled}),
`update_trade` applies the status and reports success. -/
theorem c9_status_transition_amended (pre post : List Trade) (t : Trade)
    (s : String) (p : TradePatch) (hpre : ∀ u ∈ pre, u.id ≠ t.id)
    (hs : p.status = some s) :
    update_trade (pre ++ t :: post) t.id p
        = (pre ++ applyPatch t p :: post, true) ∧
    (applyPatch t p).status = s := by
  refine ⟨update_trade_found pre post t p hpre, ?_⟩
  simp [applyPatch, hs]

/-- Witness for the amended C9: the forbidden transition filled → open is
applied and reported successful. -/
theorem c9_status_transition_amended_witness :
    (∀ u ∈ ([] : List Trade), u.id ≠ (exTrade "a" "sell" 1 2 "filled").id) ∧
    ({ status := some "open" } : TradePatch).status = some "open" ∧
    (update_trade ([] ++ exTrade "a" "sell" 1 2 "filled" :: [])
        (exTrade "a" "sell" 1 2 "filled").id { status := some "open" }
      = ([] ++ applyPatch (exTrade "a" "sell" 1 2 "filled")
          { status := some "open" } :: [], true) ∧
    (applyPatch (exTrade "a" "sell" 1 2 "filled")
        { status := some "open" }).status = "open") :=
  ⟨by simp, rfl,
   c9_status_transition_amended [] [] (exTrade "a" "sell" 1 2 "filled") "open"
     { status := some "open" } (by simp) rfl⟩

/-- C10 counterexample: when the gateway's answer carries neither a truthy
`error` nor a `txid` (the `add_trade` call sits inside the txid branch),
`place_order_direct` appends no TradeRecord at all, contradicting "appends
exactly one TradeRecord the instant the submission is attempted". -/
theorem c10_counterexample :
    place_order_direct [] "XRPGBP" "buy" (48/100) 10 "t1" "t2" 0 .okNoTxid = []
      ∧ (place_order_direct [] "XRPGBP" "buy" (48/100) 10 "t1" "t2" 0
          .okNoTxid).length = 0 :=
  ⟨rfl, rfl⟩

/-- C10 (amended): `place_order_direct` appends exactly one record on the
three handled outcomes — gateway error (status `failed`, error recorded),
txid response (status `open`, external order id stored), raised exception
(fresh record `tid2`, status `failed`, error recorded) — but appends nothing
when the response carries neither an error nor a txid; it never raises past
its boundary in any of these cases. -/
theorem c10_place_order_amended (db : List Trade) (pair otype : String)
    (price volume now : ℚ) (tid tid2 : String) :
    (∀ e, place_order_direct db pair otype price volume tid tid2 now
        (.errorResp e)
      = db ++ [{ newPendingTrade pair otype price volume tid now with
          status := "failed", error := some e }]) ∧
    (∀ x, place_order_direct db pair otype price volume tid tid2 now
        (.okTxid x)
      = db ++ [{ newPendingTrade pair otype price volume tid now with
          status := "open", order_id := some x }]) ∧
    (∀ e, place_order_direct db pair otype price volume tid tid2 now (.exn e)
      = db ++ [{ newPendingTrade pair otype price volume tid2 now with
          status := "failed", error := some e }]) ∧
    place_order_direct db pair otype price volume tid tid2 now .okNoTxid
      = db :=
  ⟨fun _ => rfl, fun _ => rfl, fun _ => rfl, rfl⟩

theorem procSellAux_mem (sid : String) (sp now : ℚ) :
    ∀ (bkts : List (ℚ × List Nat)) (trades : List Trade) (sv : ℚ),
      ∀ m ∈ (procSellAux sid sp now bkts trades sv).2.2.1,
        m.sell_trade_id = sid ∧ m.sell_price = sp ∧ m.buy_price < sp ∧
        m.margin = m.volume * (m.sell_price - m.buy_price) ∧
        m.margin_percentage = m.margin / (m.volume * m.buy_price) * 100
  | [], _, _, m, hm => absurd hm (by simp [procSellAux])
  | (p, []) :: rest, trades, sv, m, hm => by
    simp only [procSellAux] at hm
    exact procSellAux_mem sid sp now rest trades sv m hm
  | (p, i0 :: tl) :: rest, trades, sv, m, hm => by
    by_cases hp : p < sp
    · simp only [procSellAux, if_pos hp] at hm
      split at hm
      · dsimp only at hm
        rw [List.mem_singleton] at hm
        subst hm
        refine ⟨rfl, rfl, hp, ?_, rfl⟩
        simp only [mkMarginRec, mul_sub]
      · dsimp only at hm
        rcases List.mem_cons.mp hm with h | h
        · subst h
          refine ⟨rfl, rfl, hp, ?_, rfl⟩
          simp only [mkMarginRec, mul_sub]
        · exact procSellAux_mem sid sp now rest _ _ m h
    · simp only [procSellAux, if_neg hp] at hm
      exact procSellAux_mem sid sp now rest trades sv m hm

theorem calcMarginsLoop_mem (now : ℚ) :
    ∀ (L : List Nat) (trades : List Trade) (bkts : List (ℚ × List Nat)),
      ∀ m ∈ (calcMarginsLoop now L trades bkts).2.2,
        m.buy_price < m.sell_price ∧
        m.margin = m.volume * (m.sell_price - m.buy_price) ∧
        m.margin_percentage = m.margin / (m.volume * m.buy_price) * 100
  | [], _, _, m, hm => absurd hm (by simp [calcMarginsLoop])
  | i :: restIdx, trades, bkts, m, hm => by
    simp only [calcMarginsLoop] at hm
    by_cases hs : (trades.getD i defaultTrade).type = "sell" ∧
        (trades.getD i defaultTrade).status = "filled"
    · rw [if_pos hs] at hm
      dsimp only at hm
      rcases List.mem_append.mp hm with h | h
      · obtain ⟨_, h2, h3, h4, h5⟩ := procSellAux_mem _ _ _ _ _ _ m h
        exact ⟨by rw [h2]; exact h3, h4, h5⟩
      · exact calcMarginsLoop_mem now restIdx _ _ m h
    · rw [if_neg hs] at hm
      exact calcMarginsLoop_mem now restIdx trades bkts m hm

theorem calculate_margins_mem (now : ℚ) (trades : List Trade) :
    ∀ m ∈ (calculate_margins now trades).2,
      m.buy_price < m.sell_price ∧
      m.margin = m.volume * (m.sell_price - m.buy_price) ∧
      m.margin_percentage = m.margin / (m.volume * m.buy_price) * 100 := by
  intro m hm
  unfold calculate_margins at hm
  exact calcMarginsLoop_mem now _ _ _ m hm

theorem procSellAux_buyPrices_sublist (sid : String) (sp now : ℚ) :
    ∀ (bkts : List (ℚ × List Nat)) (trades : List Trade) (sv : ℚ),
      ((procSellAux sid sp now bkts trades sv).2.2.1.map
        (·.buy_price)).Sublist (bkts.map (·.1))
  | [], trades, sv => by simp [procSellAux]
  | (p, []) :: rest, trades, sv => by
    simp only [procSellAux, List.map_cons]
    exact (procSellAux_buyPrices_sublist sid sp now rest trades sv).cons p
  | (p, i0 :: tl) :: rest, trades, sv => by
    by_cases hp : p < sp
    · simp only [procSellAux, if_pos hp]
      split
      · dsimp only
        simp only [List.map_cons, List.map_nil, mkMarginRec, List.map_cons]
        exact (List.nil_sublist _).cons₂ p
      · dsimp only
        simp only [List.map_cons]
        exact (procSellAux_buyPrices_sublist sid sp now rest _ _).cons₂ p
    · simp only [procSellAux, if_neg hp, List.map_cons]
      exact (procSellAux_buyPrices_sublist sid sp now rest trades sv).cons p

/-- C7: every MarginRecord emitted by `calculate_margins` satisfies, in exact
arithmetic, `margin = matchedVolume * (sellPrice - buyPrice)` and
`marginPercentage = margin / (matchedVolume * buyPrice) * 100`; and in
Scenario B (buy 10 units at 0.4800, sell 10 units at 0.5200) exactly one
MarginRecord is produced, with volume 10, margin 0.4000 and margin
percentage 25/3 ≈ 8.33%. -/
theorem c7_margin_record_formulas (now : ℚ) (trades : List Trade) :
    (∀ m ∈ (calculate_margins now trades).2,
      m.margin = m.volume * (m.sell_price - m.buy_price) ∧
      m.margin_percentage = m.margin / (m.volume * m.buy_price) * 100) ∧
    (calculate_margins 0 scenarioB).2 = [marginB] ∧
    marginB.volume = 10 ∧ marginB.margin = 4/10 ∧
    |marginB.margin_percentage - 833/100| < 1/100 := by
  refine ⟨fun m hm => (calculate_margins_mem now trades m hm).2, ?_, rfl, rfl, ?_⟩
  · norm_num [calculate_margins, calcMarginsLoop, procSellAux, buildBuckets,
      sortBuckets, insertBucket, bucketInsert, exTrade, scenarioB, isFilledBuy,
      mkMarginRec, defaultTrade, marginB, List.range_succ, min_def]
  · show |(25:ℚ)/3 - 833/100| < 1/100
    rw [abs_lt]
    norm_num

/-- Witness for C7 at Scenario B's single margin record. -/
theorem c7_margin_record_formulas_witness :
    marginB ∈ (calculate_margins 0 scenarioB).2 ∧
    marginB.margin = marginB.volume * (marginB.sell_price - marginB.buy_price) ∧
    marginB.margin_percentage
      = marginB.margin / (marginB.volume * marginB.buy_price) * 100 := by
  have hmem : marginB ∈ (calculate_margins 0 scenarioB).2 := by
    norm_num [calculate_margins, calcMarginsLoop, procSellAux, buildBuckets,
      sortBuckets, insertBucket, bucketInsert, exTrade, scenarioB, isFilledBuy,
      mkMarginRec, defaultTrade, marginB, List.range_succ, min_def]
  exact ⟨hmem, (c7_margin_record_formulas 0 scenarioB).1 marginB hmem⟩

/-- C1 counterexample: with two filled buys of 5 units each at 0.48 and one
filled sell of 10 units at 0.52, `calculate_margins` emits a single record
matching only 5 of the sell's 10 units and leaves the ledger unchanged: the
second buy (price 0.48 < 0.52, 5 units, filled) still has remaining volume,
yet no further MarginRecord is emitted for the sell — the loop consumes at
most one buy record per price bucket, so matching does NOT continue until
the sell is exhausted or no eligible buy remains. -/
theorem c1_counterexample :
    (calculate_margins 0 exTwoBuysOnePrice).2.length = 1 ∧
    ((calculate_margins 0 exTwoBuysOnePrice).2.map (·.volume)).sum = 5 ∧
    (calculate_margins 0 exTwoBuysOnePrice).1 = exTwoBuysOnePrice := by
  norm_num [calculate_margins, calcMarginsLoop, procSellAux, buildBuckets,
    sortBuckets, insertBucket, bucketInsert, exTrade, exTwoBuysOnePrice,
    isFilledBuy, mkMarginRec, defaultTrade, List.range_succ, min_def,
    List.getD_cons_zero, List.getD_cons_succ, List.getD, List.enum,
    List.enumFrom, List.set]


theorem frameOK_refl (a : Trade) : FrameOK a a := ⟨rfl, Or.inl rfl⟩

theorem frameOK_fields {a b : Trade} (h : FrameOK a b) :
    b.id = a.id ∧ b.type = a.type ∧ b.status = a.status ∧ b.price = a.price := by
  rw [h.1]
  exact ⟨rfl, rfl, rfl, rfl⟩

theorem frameOK_trans {a b c : Trade} (h1 : FrameOK a b) (h2 : FrameOK b c) :
    FrameOK a c := by
  refine ⟨?_, ?_⟩
  · rw [h2.1, h1.1]
  · rcases h2.2 with hc | hb
    · rcases h1.2 with hb' | ha
      · exact Or.inl (hc.trans hb')
      · exact Or.inr ha
    · refine Or.inr ?_
      have hf := frameOK_fields h1
      exact ⟨hf.2.1 ▸ hb.1, hf.2.2.1 ▸ hb.2⟩

theorem frameOK_not_buy {a b : Trade} (h : FrameOK a b) (ha : a.type ≠ "buy") :
    b = a := by
  rcases h.2 with hb | hbuy
  · exact hb
  · exact absurd hbuy.1 ha

theorem forall₂_frame_refl : ∀ l : List Trade, List.Forall₂ FrameOK l l
  | [] => .nil
  | a :: t => .cons (frameOK_refl a) (forall₂_frame_refl t)

theorem forall₂_frame_trans :
    ∀ {l1 l2 l3 : List Trade}, List.Forall₂ FrameOK l1 l2 →
      List.Forall₂ FrameOK l2 l3 → List.Forall₂ FrameOK l1 l3
  | _, _, _, .nil, .nil => .nil
  | _, _, _, .cons h1 t1, .cons h2 t2 =>
    .cons (frameOK_trans h1 h2) (forall₂_frame_trans t1 t2)

theorem forall₂_frame_getD :
    ∀ {l l' : List Trade}, List.Forall₂ FrameOK l l' → ∀ i : Nat,
      FrameOK (l.getD i defaultTrade) (l'.getD i defaultTrade)
  | _, _, .nil, _ => frameOK_refl _
  | _, _, .cons h _, 0 => h
  | _, _, .cons _ t, i + 1 => forall₂_frame_getD t i

theorem forall₂_frame_set :
    ∀ (l : List Trade) (i : Nat) (v : Trade),
      FrameOK (l.getD i defaultTrade) v → List.Forall₂ FrameOK l (l.set i v)
  | [], _, _, _ => .nil
  | a :: t, 0, v, h => .cons h (forall₂_frame_refl t)
  | a :: t, i + 1, v, h => .cons (frameOK_refl a) (forall₂_frame_set t i v h)

theorem bktsOK_nil (trades : List Trade) : BktsOK trades [] := by
  intro pl hpl
  exact absurd hpl (List.not_mem_nil pl)

theorem bktsOK_tail {trades : List Trade} {b : ℚ × List Nat}
    {rest : List (ℚ × List Nat)} (h : BktsOK trades (b :: rest)) :
    BktsOK trades rest :=
  fun pl hpl => h pl (List.mem_cons_of_mem b hpl)

theorem bktsOK_head {trades : List Trade} {p : ℚ} {l : List Nat}
    {rest : List (ℚ × List Nat)} (h : BktsOK trades ((p, l) :: rest)) :
    ∀ i ∈ l, (trades.getD i defaultTrade).type = "buy" ∧
      (trades.getD i defaultTrade).status = "filled" :=
  h (p, l) (List.mem_cons_self _ _)

theorem bktsOK_cons {trades : List Trade} {p : ℚ} {l : List Nat}
    {rest : List (ℚ × List Nat)}
    (hl : ∀ i ∈ l, (trades.getD i defaultTrade).type = "buy" ∧
      (trades.getD i defaultTrade).status = "filled")
    (h : BktsOK trades rest) : BktsOK trades ((p, l) :: rest) := by
  intro pl hpl
  rcases List.mem_cons.mp hpl with he | hm
  · subst he
    exact hl
  · exact h pl hm

theorem bktsOK_of_frame {trades trades' : List Trade}
    {bkts : List (ℚ × List Nat)} (hf : List.Forall₂ FrameOK trades trades')
    (h : BktsOK trades bkts) : BktsOK trades' bkts := by
  intro pl hpl i hi
  have hfields := frameOK_fields (forall₂_frame_getD hf i)
  obtain ⟨ht, hs⟩ := h pl hpl i hi
  exact ⟨hfields.2.1.trans ht, hfields.2.2.1.trans hs⟩

theorem procSellAux_frame (sid : String) (sp now : ℚ) :
    ∀ (bkts : List (ℚ × List Nat)) (trades : List Trade) (sv : ℚ),
      BktsOK trades bkts →
      List.Forall₂ FrameOK trades (procSellAux sid sp now bkts trades sv).2.1 ∧
      BktsOK (procSellAux sid sp now bkts trades sv).2.1
        (procSellAux sid sp now bkts trades sv).1
  | [], trades, sv, _ => by
    simp only [procSellAux]
    exact ⟨forall₂_frame_refl trades, bktsOK_nil trades⟩
  | (p, []) :: rest, trades, sv, h => by
    have ih := procSellAux_frame sid sp now rest trades sv (bktsOK_tail h)
    simp only [procSellAux]
    refine ⟨ih.1, bktsOK_cons ?_ ih.2⟩
    intro i hi
    exact absurd hi (List.not_mem_nil i)
  | (p, i0 :: tl) :: rest, trades, sv, h => by
    by_cases hp : p < sp
    case neg =>
      have ih := procSellAux_frame sid sp now rest trades sv (bktsOK_tail h)
      simp only [procSellAux, if_neg hp]
      refine ⟨ih.1, bktsOK_cons ?_ ih.2⟩
      intro i hi
      have hh := bktsOK_head h i hi
      have hf := frameOK_fields (forall₂_frame_getD ih.1 i)
      exact ⟨hf.2.1.trans hh.1, hf.2.2.1.trans hh.2⟩
    case pos =>
      have hbt := bktsOK_head h i0 (List.mem_cons_self i0 tl)
      by_cases hrem : (trades.getD i0 defaultTrade).volume -
          min (trades.getD i0 defaultTrade).volume sv > 0
      · -- partial consumption: the buy is written back
        have hstep : List.Forall₂ FrameOK trades
            (trades.set i0 { trades.getD i0 defaultTrade with
              volume := (trades.getD i0 defaultTrade).volume -
                min (trades.getD i0 defaultTrade).volume sv }) :=
          forall₂_frame_set trades i0 _ ⟨rfl, Or.inr hbt⟩
        have hbk' : BktsOK (trades.set i0 { trades.getD i0 defaultTrade with
              volume := (trades.getD i0 defaultTrade).volume -
                min (trades.getD i0 defaultTrade).volume sv })
            ((p, i0 :: tl) :: rest) := bktsOK_of_frame hstep h
        by_cases hbrk : sv - min (trades.getD i0 defaultTrade).volume sv ≤ 0
        · simp only [procSellAux, if_pos hp, if_pos hrem, if_pos hbrk]
          exact ⟨hstep, hbk'⟩
        · have ih := procSellAux_frame sid sp now rest _
            (sv - min (trades.getD i0 defaultTrade).volume sv)
            (bktsOK_tail hbk')
          simp only [procSellAux, if_pos hp, if_pos hrem, if_neg hbrk]
          refine ⟨forall₂_frame_trans hstep ih.1, bktsOK_cons ?_ ih.2⟩
          intro i hi
          have hh := bktsOK_head hbk' i hi
          have hf := frameOK_fields (forall₂_frame_getD ih.1 i)
          exact ⟨hf.2.1.trans hh.1, hf.2.2.1.trans hh.2⟩
      · -- full consumption: the trade list is untouched, the head is popped
        by_cases hbrk : sv - min (trades.getD i0 defaultTrade).volume sv ≤ 0
        · simp only [procSellAux, if_pos hp, if_neg hrem, if_pos hbrk]
          refine ⟨forall₂_frame_refl trades, bktsOK_cons ?_ (bktsOK_tail h)⟩
          intro i hi
          exact bktsOK_head h i (List.mem_cons_of_mem i0 hi)
        · have ih := procSellAux_frame sid sp now rest trades
            (sv - min (trades.getD i0 defaultTrade).volume sv)
            (bktsOK_tail h)
          simp only [procSellAux, if_pos hp, if_neg hrem, if_neg hbrk]
          refine ⟨ih.1, bktsOK_cons ?_ ih.2⟩
          intro i hi
          have hh := bktsOK_head h i (List.mem_cons_of_mem i0 hi)
          have hf := frameOK_fields (forall₂_frame_getD ih.1 i)
          exact ⟨hf.2.1.trans hh.1, hf.2.2.1.trans hh.2⟩

theorem calcMarginsLoop_frame (now : ℚ) :
    ∀ (L : List Nat) (trades : List Trade) (bkts : List (ℚ × List Nat)),
      BktsOK trades bkts →
      List.Forall₂ FrameOK trades (calcMarginsLoop now L trades bkts).1 ∧
      BktsOK (calcMarginsLoop now L trades bkts).1
        (calcMarginsLoop now L trades bkts).2.1
  | [], trades, bkts, h => by
    simp only [calcMarginsLoop]
    exact ⟨forall₂_frame_refl trades, h⟩
  | i :: restIdx, trades, bkts, h => by
    by_cases hs : (trades.getD i defaultTrade).type = "sell" ∧
        (trades.getD i defaultTrade).status = "filled"
    · have h1 := procSellAux_frame (trades.getD i defaultTrade).id
        (trades.getD i defaultTrade).price now bkts trades
        (trades.getD i defaultTrade).volume h
      have ih := calcMarginsLoop_frame now restIdx _ _ h1.2
      simp only [calcMarginsLoop, if_pos hs]
      exact ⟨forall₂_frame_trans h1.1 ih.1, ih.2⟩
    · have ih := calcMarginsLoop_frame now restIdx trades bkts h
      simp only [calcMarginsLoop, if_neg hs]
      exact ih

theorem mem_enum_getD {trades : List Trade} :
    ∀ it ∈ trades.enum, trades.getD it.1 defaultTrade = it.2 := by
  intro it hit
  rcases it with ⟨i, t⟩
  rw [List.mem_enum_iff_getElem?] at hit
  dsimp only at hit
  simp only [List.getD, List.get?_eq_getElem?]
  rw [hit]
  rfl

theorem bktsOK_bucketInsert {trades : List Trade} {q : ℚ} {i : Nat}
    (hi : (trades.getD i defaultTrade).type = "buy" ∧
      (trades.getD i defaultTrade).status = "filled") :
    ∀ (bs : List (ℚ × List Nat)), BktsOK trades bs →
      BktsOK trades (bucketInsert bs q i)
  | [], _ => by
    simp only [bucketInsert]
    refine bktsOK_cons ?_ (bktsOK_nil trades)
    intro j hj
    rw [List.mem_singleton] at hj
    subst hj
    exact hi
  | (q', l) :: rest, h => by
    by_cases hq : q' = q
    · simp only [bucketInsert, if_pos hq]
      refine bktsOK_cons ?_ (bktsOK_tail h)
      intro j hj
      rcases List.mem_append.mp hj with hm | hm
      · exact bktsOK_head h j hm
      · rw [List.mem_singleton] at hm
        subst hm
        exact hi
    · simp only [bucketInsert, if_neg hq]
      exact bktsOK_cons (bktsOK_head h) (bktsOK_bucketInsert hi rest (bktsOK_tail h))

theorem bktsOK_foldl {trades : List Trade} :
    ∀ (l : List (Nat × Trade)),
      (∀ it ∈ l, (trades.getD it.1 defaultTrade).type = "buy" ∧
        (trades.getD it.1 defaultTrade).status = "filled") →
      ∀ (bs : List (ℚ × List Nat)), BktsOK trades bs →
        BktsOK trades
          (l.foldl (fun bs it => bucketInsert bs (it.2.price) it.1) bs)
  | [], _, bs, h => h
  | it :: rest, hl, bs, h => by
    simp only [List.foldl_cons]
    exact bktsOK_foldl rest (fun u hu => hl u (List.mem_cons_of_mem it hu)) _
      (bktsOK_bucketInsert (hl it (List.mem_cons_self it rest)) bs h)

theorem bktsOK_buildBuckets (trades : List Trade) :
    BktsOK trades (buildBuckets trades) := by
  unfold buildBuckets
  refine bktsOK_foldl _ ?_ [] (bktsOK_nil trades)
  intro it hit
  rw [List.mem_filter] at hit
  have hgd := mem_enum_getD it hit.1
  have hb : it.2.type = "buy" ∧ it.2.status = "filled" := by
    have := hit.2
    unfold isFilledBuy at this
    rw [Bool.and_eq_true, beq_iff_eq, beq_iff_eq] at this
    exact this
  rw [hgd]
  exact hb

theorem mem_insertBucket {pl b : ℚ × List Nat} :
    ∀ bs : List (ℚ × List Nat), pl ∈ insertBucket b bs → pl = b ∨ pl ∈ bs
  | [], h => by
    simp only [insertBucket] at h
    exact Or.inl (List.mem_singleton.mp h)
  | c :: rest, h => by
    by_cases hc : b.1 ≤ c.1
    · simp only [insertBucket, if_pos hc] at h
      rcases List.mem_cons.mp h with he | hm
      · exact Or.inl he
      · exact Or.inr hm
    · simp only [insertBucket, if_neg hc] at h
      rcases List.mem_cons.mp h with he | hm
      · exact Or.inr (he ▸ List.mem_cons_self c rest)
      · rcases mem_insertBucket rest hm with he | hm'
        · exact Or.inl he
        · exact Or.inr (List.mem_cons_of_mem c hm')

theorem mem_sortBuckets {pl : ℚ × List Nat} :
    ∀ bs : List (ℚ × List Nat), pl ∈ sortBuckets bs → pl ∈ bs
  | [], h => h
  | b :: rest, h => by
    simp only [sortBuckets] at h
    rcases mem_insertBucket _ h with he | hm
    · exact he ▸ List.mem_cons_self b rest
    · exact List.mem_cons_of_mem b (mem_sortBuckets rest hm)

theorem bktsOK_sortBuckets {trades : List Trade} {bs : List (ℚ × List Nat)}
    (h : BktsOK trades bs) : BktsOK trades (sortBuckets bs) :=
  fun pl hpl => h pl (mem_sortBuckets bs hpl)

theorem calculate_margins_frame (now : ℚ) (trades : List Trade) :
    List.Forall₂ FrameOK trades (calculate_margins now trades).1 := by
  unfold calculate_margins
  exact (calcMarginsLoop_frame now _ trades _
    (bktsOK_sortBuckets (bktsOK_buildBuckets trades))).1

theorem forall₂_frame_filter_length (P : Trade → Bool)
    (hP : ∀ a b, FrameOK a b → P b = P a) :
    ∀ {l l' : List Trade}, List.Forall₂ FrameOK l l' →
      (l'.filter P).length = (l.filter P).length
  | _, _, .nil => rfl
  | _, _, .cons h t => by
    rename_i a la b lb
    have ih := forall₂_frame_filter_length P hP t
    simp only [List.filter_cons, hP a la h]
    by_cases hpa : P a = true
    · simp only [if_pos hpa, List.length_cons, ih]
    · simp only [if_neg hpa, ih]

/-- C3 counterexample: `get_performance_summary` is not a pure aggregation —
it first runs `calculate_margins`, which on a partially consumed buy rewrites
the stored record's `volume` field: with a filled buy of 10 at 0.48 and a
filled sell of 4 at 0.52 the buy's stored volume drops from 10 to 6. -/
theorem c3_counterexample :
    (get_performance_summary 0 exPartialConsumption).1 ≠ exPartialConsumption ∧
    ((get_performance_summary 0 exPartialConsumption).1.getD 0
        defaultTrade).volume = 6 := by
  norm_num [get_performance_summary, calculate_margins, calcMarginsLoop,
    procSellAux, buildBuckets, sortBuckets, insertBucket, bucketInsert,
    exTrade, exPartialConsumption, isFilledBuy, isFilledSell, mkMarginRec,
    defaultTrade, List.range_succ, min_def, List.getD_cons_zero,
    List.getD_cons_succ, List.getD, List.enum, List.enumFrom, List.set]

/-- C3 (amended): `get_performance_summary` computes the totals, but it first
runs margin matching, which may rewrite the `volume` field of filled buy
records; every record is otherwise unchanged (same id, pair, type, status,
price and remaining fields — the frame relation `FrameOK`), and in
particular the record count and the per-status / per-side counts it returns
are exactly those of the ledger as passed in. -/
theorem c3_performance_summary_amended (now : ℚ) (trades : List Trade) :
    List.Forall₂ FrameOK trades (get_performance_summary now trades).1 ∧
    (get_performance_summary now trades).2.total_trades = trades.length ∧
    (get_performance_summary now trades).2.filled_trades
      = (trades.filter fun t => t.status == "filled").length ∧
    (get_performance_summary now trades).2.buy_trades
      = (trades.filter fun t => t.type == "buy").length ∧
    (get_performance_summary now trades).2.sell_trades
      = (trades.filter fun t => t.type == "sell").length := by
  have hf := calculate_margins_frame now trades
  refine ⟨hf, hf.length_eq.symm, ?_, ?_, ?_⟩
  · exact forall₂_frame_filter_length _
      (fun a b h => by rw [(frameOK_fields h).2.2.1]) hf
  · exact forall₂_frame_filter_length _
      (fun a b h => by rw [(frameOK_fields h).2.1]) hf
  · exact forall₂_frame_filter_length _
      (fun a b h => by rw [(frameOK_fields h).2.1]) hf

theorem procSellAux_sum (sid : String) (sp now : ℚ) :
    ∀ (bkts : List (ℚ × List Nat)) (trades : List Trade) (sv : ℚ), 0 ≤ sv →
      (((procSellAux sid sp now bkts trades sv).2.2.1.map (·.volume)).sum
        = sv - (procSellAux sid sp now bkts trades sv).2.2.2) ∧
      0 ≤ (procSellAux sid sp now bkts trades sv).2.2.2
  | [], trades, sv, hsv => by
    simp only [procSellAux]
    exact ⟨by simp, hsv⟩
  | (p, []) :: rest, trades, sv, hsv => by
    simp only [procSellAux]
    exact procSellAux_sum sid sp now rest trades sv hsv
  | (p, i0 :: tl) :: rest, trades, sv, hsv => by
    by_cases hp : p < sp
    case neg =>
      simp only [procSellAux, if_neg hp]
      exact procSellAux_sum sid sp now rest trades sv hsv
    case pos =>
      have hble : min (trades.getD i0 defaultTrade).volume sv ≤ sv :=
        min_le_right _ _
      have hnn : 0 ≤ sv - min (trades.getD i0 defaultTrade).volume sv :=
        sub_nonneg.mpr hble
      by_cases hrem : (trades.getD i0 defaultTrade).volume -
          min (trades.getD i0 defaultTrade).volume sv > 0
      · by_cases hbrk : sv - min (trades.getD i0 defaultTrade).volume sv ≤ 0
        · simp only [procSellAux, if_pos hp, if_pos hrem, if_pos hbrk]
          refine ⟨?_, hnn⟩
          simp only [List.map_cons, List.map_nil, List.sum_cons, List.sum_nil,
            mkMarginRec]
          ring
        · have ih := procSellAux_sum sid sp now rest
            (trades.set i0 { trades.getD i0 defaultTrade with
              volume := (trades.getD i0 defaultTrade).volume -
                min (trades.getD i0 defaultTrade).volume sv })
            (sv - min (trades.getD i0 defaultTrade).volume sv) hnn
          simp only [procSellAux, if_pos hp, if_pos hrem, if_neg hbrk]
          refine ⟨?_, ih.2⟩
          simp only [List.map_cons, List.sum_cons, mkMarginRec]
          rw [ih.1]
          ring
      · by_cases hbrk : sv - min (trades.getD i0 defaultTrade).volume sv ≤ 0
        · simp only [procSellAux, if_pos hp, if_neg hrem, if_pos hbrk]
          refine ⟨?_, hnn⟩
          simp only [List.map_cons, List.map_nil, List.sum_cons, List.sum_nil,
            mkMarginRec]
          ring
        · have ih := procSellAux_sum sid sp now rest trades
            (sv - min (trades.getD i0 defaultTrade).volume sv) hnn
          simp only [procSellAux, if_pos hp, if_neg hrem, if_neg hbrk]
          refine ⟨?_, ih.2⟩
          simp only [List.map_cons, List.sum_cons, mkMarginRec]
          rw [ih.1]
          ring

theorem calcMarginsLoop_sell_sum (now : ℚ) (trades0 : List Trade) (k : Nat)
    (hk1 : (trades0.getD k defaultTrade).type = "sell")
    (hk2 : (trades0.getD k defaultTrade).status = "filled")
    (hvol : 0 ≤ (trades0.getD k defaultTrade).volume)
    (huniq : ∀ j, j ≠ k → (trades0.getD j defaultTrade).type = "sell" →
      (trades0.getD j defaultTrade).status = "filled" →
      (trades0.getD j defaultTrade).id ≠ (trades0.getD k defaultTrade).id) :
    ∀ (L : List Nat) (cur : List Trade) (bkts : List (ℚ × List Nat)),
      List.Forall₂ FrameOK trades0 cur → BktsOK cur bkts → L.Nodup →
      ((((calcMarginsLoop now L cur bkts).2.2.filter fun m =>
          m.sell_trade_id == (trades0.getD k defaultTrade).id).map
          (·.volume)).sum)
        ≤ if k ∈ L then (trades0.getD k defaultTrade).volume else 0
  | [], cur, bkts, _, _, _ => by
    simp [calcMarginsLoop]
  | i :: restIdx, cur, bkts, hf, hb, hnd => by
    have hfi := forall₂_frame_getD hf i
    by_cases hs : (cur.getD i defaultTrade).type = "sell" ∧
        (cur.getD i defaultTrade).status = "filled"
    · have ht0 : (trades0.getD i defaultTrade).type = "sell" :=
        ((frameOK_fields hfi).2.1).symm.trans hs.1
      have hst0 : (trades0.getD i defaultTrade).status = "filled" :=
        ((frameOK_fields hfi).2.2.1).symm.trans hs.2
      have hcur_eq : cur.getD i defaultTrade = trades0.getD i defaultTrade :=
        frameOK_not_buy hfi (by rw [ht0]; decide)
      simp only [calcMarginsLoop, if_pos hs]
      rw [hcur_eq]
      have hpf := procSellAux_frame (trades0.getD i defaultTrade).id
        (trades0.getD i defaultTrade).price now bkts cur
        (trades0.getD i defaultTrade).volume hb
      have hf' := forall₂_frame_trans hf hpf.1
      have ih := calcMarginsLoop_sell_sum now trades0 k hk1 hk2 hvol huniq
        restIdx _ _ hf' hpf.2 (List.Nodup.of_cons hnd)
      simp only [List.filter_append, List.map_append, List.sum_append]
      by_cases hik : i = k
      · subst hik
        have hknotin : i ∉ restIdx := (List.nodup_cons.mp hnd).1
        rw [if_neg hknotin] at ih
        rw [if_pos (List.mem_cons_self i restIdx)]
        rw [List.filter_eq_self.mpr (fun m hm => by
          have h1 := (procSellAux_mem _ _ _ _ _ _ m hm).1
          simp [h1])]
        have hsum := procSellAux_sum (trades0.getD i defaultTrade).id
          (trades0.getD i defaultTrade).price now bkts cur
          (trades0.getD i defaultTrade).volume hvol
        have hle : (((procSellAux (trades0.getD i defaultTrade).id
            (trades0.getD i defaultTrade).price now bkts cur
            (trades0.getD i defaultTrade).volume).2.2.1.map
            (·.volume)).sum) ≤ (trades0.getD i defaultTrade).volume := by
          rw [hsum.1]
          linarith [hsum.2]
        linarith [ih, hle]
      · have hid := huniq i hik ht0 hst0
        rw [List.filter_eq_nil_iff.mpr (fun m hm hcontra => by
          have h1 := (procSellAux_mem _ _ _ _ _ _ m hm).1
          have h2 : m.sell_trade_id = (trades0.getD k defaultTrade).id := by
            simpa using hcontra
          rw [h1] at h2
          exact hid h2)]
        simp only [List.map_nil, List.sum_nil, zero_add]
        by_cases hkr : k ∈ restIdx
        · rw [if_pos hkr] at ih
          rw [if_pos (List.mem_cons_of_mem i hkr)]
          exact ih
        · rw [if_neg hkr] at ih
          rw [if_neg (fun hmem => by
            rcases List.mem_cons.mp hmem with he | hm
            · exact hik he.symm
            · exact hkr hm)]
          exact ih
    · have hik : i ≠ k := by
        intro he
        rw [he] at hs
        have hcur_eq : cur.getD k defaultTrade = trades0.getD k defaultTrade :=
          frameOK_not_buy (forall₂_frame_getD hf k) (by rw [hk1]; decide)
        exact hs ⟨by rw [hcur_eq]; exact hk1, by rw [hcur_eq]; exact hk2⟩
      simp only [calcMarginsLoop, if_neg hs]
      have ih := calcMarginsLoop_sell_sum now trades0 k hk1 hk2 hvol huniq
        restIdx cur bkts hf hb (List.Nodup.of_cons hnd)
      by_cases hkr : k ∈ restIdx
      · rw [if_pos hkr] at ih
        rw [if_pos (List.mem_cons_of_mem i hkr)]
        exact ih
      · rw [if_neg hkr] at ih
        rw [if_neg (fun hmem => by
          rcases List.mem_cons.mp hmem with he | hm
          · exact hik he.symm
          · exact hkr hm)]
        exact ih

/-- C6 counterexample: the matching loop caps consumption by the sell's
`volume` (requested volume) field, not by `filled_volume`: for a sell whose
requested volume is 10 but whose filled volume is only 5, the total matched
volume is 10, exceeding the filled volume. -/
theorem c6_counterexample :
    ((((calculate_margins 0 exPartialFillSell).2.filter fun m =>
        m.sell_trade_id == "s").map (·.volume)).sum) = 10 ∧
    (exPartialFillSell.getD 1 defaultTrade).filled_volume = 5 ∧
    ¬ ((((calculate_margins 0 exPartialFillSell).2.filter fun m =>
        m.sell_trade_id == "s").map (·.volume)).sum
      ≤ (exPartialFillSell.getD 1 defaultTrade).filled_volume) := by
  norm_num [calculate_margins, calcMarginsLoop, procSellAux, buildBuckets,
    sortBuckets, insertBucket, bucketInsert, exTrade, exPartialFillSell,
    isFilledBuy, mkMarginRec, defaultTrade, List.range_succ, min_def,
    List.getD_cons_zero, List.getD_cons_succ, List.getD, List.enum,
    List.enumFrom, List.set, List.filter]

/-- C6 (amended): for every ledger state and every filled sell record with a
non-negative volume whose id is not shared by another filled sell, the sum
of the matched volumes over all MarginRecords that `calculate_margins`
emits for that sell record is at most the record's `volume` (requested
volume) field — not its `filled_volume`, which the matching never reads. -/
theorem c6_sell_matched_volume_amended (now : ℚ) (trades : List Trade)
    (k : Nat) (hsell : (trades.getD k defaultTrade).type = "sell")
    (hfill : (trades.getD k defaultTrade).status = "filled")
    (hvol : 0 ≤ (trades.getD k defaultTrade).volume)
    (huniq : ∀ j, j ≠ k → (trades.getD j defaultTrade).type = "sell" →
      (trades.getD j defaultTrade).status = "filled" →
      (trades.getD j defaultTrade).id ≠ (trades.getD k defaultTrade).id) :
    ((((calculate_margins now trades).2.filter fun m =>
        m.sell_trade_id == (trades.getD k defaultTrade).id).map
        (·.volume)).sum) ≤ (trades.getD k defaultTrade).volume := by
  have hk : k < trades.length := by
    by_contra hnk
    rw [List.getD_eq_default _ _ (Nat.le_of_not_lt hnk)] at hsell
    exact absurd hsell (by decide)
  have hmain := calcMarginsLoop_sell_sum now trades k hsell hfill hvol huniq
    (List.range trades.length) trades (sortBuckets (buildBuckets trades))
    (forall₂_frame_refl trades)
    (bktsOK_sortBuckets (bktsOK_buildBuckets trades)) (List.nodup_range _)
  rw [if_pos (List.mem_range.mpr hk)] at hmain
  exact hmain

/-- Witness for the amended C6 at Scenario B's sell record. -/
theorem c6_sell_matched_volume_amended_witness :
    (scenarioB.getD 1 defaultTrade).type = "sell" ∧
    (scenarioB.getD 1 defaultTrade).status = "filled" ∧
    (0:ℚ) ≤ (scenarioB.getD 1 defaultTrade).volume ∧
    ((((calculate_margins 0 scenarioB).2.filter fun m =>
        m.sell_trade_id == (scenarioB.getD 1 defaultTrade).id).map
        (·.volume)).sum) ≤ (scenarioB.getD 1 defaultTrade).volume := by
  have huniq : ∀ j, j ≠ 1 → (scenarioB.getD j defaultTrade).type = "sell" →
      (scenarioB.getD j defaultTrade).status = "filled" →
      (scenarioB.getD j defaultTrade).id ≠ (scenarioB.getD 1 defaultTrade).id := by
    intro j hj h1 _
    match j with
    | 0 => exact absurd h1 (by decide)
    | 1 => exact absurd rfl hj
    | n + 2 =>
      rw [List.getD_eq_default _ _ (by
        have : scenarioB.length = 2 := by decide
        omega)] at h1
      exact absurd h1 (by decide)
  refine ⟨by decide, by decide, by decide, ?_⟩
  exact c6_sell_matched_volume_amended 0 scenarioB 1 (by decide) (by decide)
    (by decide) huniq

theorem round4_mono {x y : ℝ} (h : x ≤ y) : round4 x ≤ round4 y := by
  unfold round4
  have h1 : round (x * 10000) ≤ round (y * 10000) := by
    rw [round_eq, round_eq]
    refine Int.floor_mono ?_
    have : x * 10000 ≤ y * 10000 :=
      mul_le_mul_of_nonneg_right h (by norm_num)
    linarith
  have h2 : ((round (x * 10000) : ℤ) : ℝ) ≤ ((round (y * 10000) : ℤ) : ℝ) :=
    Int.cast_le.mpr h1
  linarith

theorem round4_idem (x : ℝ) : round4 (round4 x) = round4 x := by
  unfold round4
  rw [div_mul_cancel₀ _ (by norm_num : (10000:ℝ) ≠ 0), round_intCast]

theorem round4_abs (x : ℝ) : |round4 x - x| ≤ 1 / 20000 := by
  unfold round4
  have h := abs_sub_round (x * 10000)
  rw [abs_sub_comm] at h
  have h2 : ((round (x * 10000) : ℤ) : ℝ) / 10000 - x
      = (((round (x * 10000) : ℤ) : ℝ) - x * 10000) / 10000 := by ring
  rw [h2, abs_div, abs_of_pos (by norm_num : (0:ℝ) < 10000),
    div_le_iff₀ (by norm_num : (0:ℝ) < 10000)]
  linarith

theorem round4_eq_div (m : ℤ) (x : ℝ) (h1 : (m : ℝ) - 1/2 ≤ x * 10000)
    (h2 : x * 10000 < (m : ℝ) + 1/2) : round4 x = (m : ℝ) / 10000 := by
  unfold round4
  have hr : round (x * 10000) = m := by
    rw [round_eq, Int.floor_eq_iff]
    constructor <;> linarith
  rw [hr]

theorem nlFactor_zero (dyn : Bool) : nlFactor dyn 0 = 0 := by
  cases dyn <;> simp [nlFactor]

theorem nlFactor_one (dyn : Bool) : nlFactor dyn 1 = 1 := by
  cases dyn <;> simp [nlFactor]

theorem nlFactor_mono (dyn : Bool) {a b : ℝ} (ha : 0 ≤ a) (h : a ≤ b) :
    nlFactor dyn a ≤ nlFactor dyn b := by
  cases dyn
  · simp only [nlFactor, Bool.false_eq_true, if_false]
    exact mul_le_mul h (Real.sqrt_le_sqrt h) (Real.sqrt_nonneg a)
      (le_trans ha h)
  · simp only [nlFactor, if_true]
    exact pow_le_pow_left₀ ha h 2

theorem getD_map_range (f : ℕ → ℝ) (N i : ℕ) (hi : i < N) :
    (((List.range N).map f).getD i 0) = f i := by
  rw [List.getD, List.get?_eq_getElem?, List.getElem?_map,
    List.getElem?_range hi]
  rfl

/-- C4 counterexample: with range percentage r = 0 the rounded bounds
coincide, `range_size` is zero, and the source raises ZeroDivisionError at
the `current_position` computation before producing any price — the grid
generator does not return N prices for every P > 0 and every range
percentage. -/
theorem c4_counterexample :
    grid_lower_bound 0.5 0 = grid_upper_bound 0.5 0 ∧
    create_nonlinear_grid 0.5 (grid_lower_bound 0.5 0) (grid_upper_bound 0.5 0)
      5 false = none := by
  have heq : grid_lower_bound 0.5 0 = grid_upper_bound 0.5 0 := by
    unfold grid_lower_bound grid_upper_bound
    norm_num
  refine ⟨heq, ?_⟩
  unfold create_nonlinear_grid
  rw [if_pos (by rw [heq]; ring)]

/-- C4 (amended): for current price P > 0, range percentage r ≥ 0 and level
count N ≥ 2, provided the rounded bounds differ (otherwise the dead
`current_position` division raises ZeroDivisionError and no grid is
returned), the grid generator returns exactly N prices, each computed as
`round4 (lower + ((i/(N-1)) ** e) * (upper - lower))` on the rounded bounds
`lower = round4 (P*(1-r/100))`, `upper = round4 (P*(1+r/100))`; the sequence
is monotonically non-decreasing, its first element is the (rounded) lower
bound, its last the (rounded) upper bound, and each rounded bound is within
the rounding tolerance 1/20000 of the exact bound. -/
theorem c4_grid_generator_amended (P r : ℝ) (N : ℕ) (dyn : Bool) (hP : 0 < P)
    (hr : 0 ≤ r) (hN : 2 ≤ N)
    (hlt : grid_lower_bound P r < grid_upper_bound P r) :
    ∃ g : List ℝ,
      create_nonlinear_grid P (grid_lower_bound P r) (grid_upper_bound P r)
        N dyn = some g ∧
      g = (List.range N).map (fun (i : ℕ) => round4 (grid_lower_bound P r +
          nlFactor dyn ((i:ℝ) / ((N:ℝ) - 1)) *
            (grid_upper_bound P r - grid_lower_bound P r))) ∧
      g.length = N ∧
      List.Pairwise (· ≤ ·) g ∧
      g.getD 0 0 = grid_lower_bound P r ∧
      g.getD (N - 1) 0 = grid_upper_bound P r ∧
      |grid_lower_bound P r - P * (1 - r / 100)| ≤ 1 / 20000 ∧
      |grid_upper_bound P r - P * (1 + r / 100)| ≤ 1 / 20000 := by
  have hN' : (2:ℝ) ≤ (N:ℝ) := by exact_mod_cast hN
  have hden : (0:ℝ) < (N:ℝ) - 1 := by linarith
  refine ⟨_, ?_, rfl, ?_, ?_, ?_, ?_, ?_, ?_⟩
  · unfold create_nonlinear_grid
    rw [if_neg (sub_ne_zero.mpr hlt.ne'), if_neg (by omega : ¬ N = 1)]
  · rw [List.length_map, List.length_range]
  · rw [List.pairwise_map]
    refine List.Pairwise.imp ?_ (List.pairwise_lt_range N)
    intro i j hij
    refine round4_mono (add_le_add_left ?_ _)
    refine mul_le_mul_of_nonneg_right ?_ (by linarith [hlt.le])
    refine nlFactor_mono dyn (div_nonneg (Nat.cast_nonneg i) hden.le) ?_
    refine (div_le_div_iff_of_pos_right hden).mpr ?_
    exact_mod_cast hij.le
  · rw [getD_map_range _ N 0 (by omega)]
    simp only [Nat.cast_zero, zero_div, nlFactor_zero, zero_mul, add_zero]
    unfold grid_lower_bound
    exact round4_idem _
  · rw [getD_map_range _ N (N - 1) (by omega)]
    rw [Nat.cast_sub (by omega : 1 ≤ N), Nat.cast_one, div_self hden.ne',
      nlFactor_one, one_mul]
    have hsum : grid_lower_bound P r +
        (grid_upper_bound P r - grid_lower_bound P r)
        = grid_upper_bound P r := by ring
    rw [hsum]
    unfold grid_upper_bound
    exact round4_idem _
  · unfold grid_lower_bound
    exact round4_abs _
  · unfold grid_upper_bound
    exact round4_abs _

/-- Witness for the amended C4 at price 0.5, range 4 percent, 5 levels,
dynamic sizing off. -/
theorem c4_grid_generator_amended_witness :
    (0:ℝ) < 0.5 ∧ (0:ℝ) ≤ 4 ∧ 2 ≤ 5 ∧
    grid_lower_bound 0.5 4 < grid_upper_bound 0.5 4 ∧
    (∃ g : List ℝ,
      create_nonlinear_grid 0.5 (grid_lower_bound 0.5 4)
        (grid_upper_bound 0.5 4) 5 false = some g ∧
      g = (List.range 5).map (fun (i : ℕ) => round4 (grid_lower_bound 0.5 4 +
          nlFactor false ((i:ℝ) / ((5:ℝ) - 1)) *
            (grid_upper_bound 0.5 4 - grid_lower_bound 0.5 4))) ∧
      g.length = 5 ∧
      List.Pairwise (· ≤ ·) g ∧
      g.getD 0 0 = grid_lower_bound 0.5 4 ∧
      g.getD (5 - 1) 0 = grid_upper_bound 0.5 4 ∧
      |grid_lower_bound 0.5 4 - 0.5 * (1 - 4 / 100)| ≤ 1 / 20000 ∧
      |grid_upper_bound 0.5 4 - 0.5 * (1 + 4 / 100)| ≤ 1 / 20000) := by
  have hlt : grid_lower_bound 0.5 4 < grid_upper_bound 0.5 4 := by
    unfold grid_lower_bound grid_upper_bound
    rw [show (0.5:ℝ) * (1 - 4/100) = 0.48 by norm_num,
      show (0.5:ℝ) * (1 + 4/100) = 0.52 by norm_num,
      round4_eq_div 4800 0.48 (by norm_num) (by norm_num),
      round4_eq_div 5200 0.52 (by norm_num) (by norm_num)]
    norm_num
  exact ⟨by norm_num, by norm_num, by norm_num, hlt,
    c4_grid_generator_amended 0.5 4 5 false (by norm_num) (by norm_num)
      (by norm_num) hlt⟩

/-- C5 counterexample: for price 0.5000, range 4 percent, 5 levels, exponent
1.5 (dynamic sizing off), the second grid price the code computes is
`round4 (0.48 + (1/4)**1.5 * 0.04) = round4 (0.485) = 0.4850`, not the
0.4868 the claim states (the claimed grid values do not satisfy the claimed
formula). -/
theorem c5_counterexample :
    (((create_nonlinear_grid 0.5 (grid_lower_bound 0.5 4)
      (grid_upper_bound 0.5 4) 5 false).getD []).getD 1 0) = 0.485 ∧
    (0.485 : ℝ) ≠ 0.4868 := by
  have hlo : grid_lower_bound 0.5 4 = 0.48 := by
    unfold grid_lower_bound
    rw [show (0.5:ℝ) * (1 - 4/100) = 0.48 by norm_num,
      round4_eq_div 4800 0.48 (by norm_num) (by norm_num)]
    norm_num
  have hhi : grid_upper_bound 0.5 4 = 0.52 := by
    unfold grid_upper_bound
    rw [show (0.5:ℝ) * (1 + 4/100) = 0.52 by norm_num,
      round4_eq_div 5200 0.52 (by norm_num) (by norm_num)]
    norm_num
  refine ⟨?_, by norm_num⟩
  rw [hlo, hhi]
  unfold create_nonlinear_grid
  rw [if_neg (by norm_num : ¬ ((0.52:ℝ) - 0.48 = 0)),
    if_neg (by norm_num : ¬ (5 = 1))]
  rw [Option.getD_some]
  rw [getD_map_range _ 5 1 (by norm_num)]
  have ht : ((1:ℕ):ℝ) / (((5:ℕ):ℝ) - 1) = 1/4 := by norm_num
  rw [ht]
  have hnl : nlFactor false (1/4 : ℝ) = 1/8 := by
    rw [nlFactor, if_neg (by simp),
      show (1/4:ℝ) = (1/2)^2 by norm_num, Real.sqrt_sq (by norm_num)]
    norm_num
  rw [hnl, show (0.48:ℝ) + 1/8 * (0.52 - 0.48) = 0.485 by norm_num,
    round4_eq_div 4850 0.485 (by norm_num) (by norm_num)]
  norm_num

/-- C5 (amended): for price 0.5000, range 4 percent, 5 levels, exponent 1.5
(dynamic sizing off), the bounds are [0.4800, 0.5200] as claimed, but the
generated grid, rounded to 4 decimals, is
[0.4800, 0.4850, 0.4941, 0.5060, 0.5200] (and no exception is raised at
this input, the bounds being distinct). -/
theorem c5_scenario_a_amended :
    grid_lower_bound 0.5 4 = 0.48 ∧ grid_upper_bound 0.5 4 = 0.52 ∧
    create_nonlinear_grid 0.5 (grid_lower_bound 0.5 4)
      (grid_upper_bound 0.5 4) 5 false
      = some [0.48, 0.485, 0.4941, 0.506, 0.52] := by
  have hlo : grid_lower_bound 0.5 4 = 0.48 := by
    unfold grid_lower_bound
    rw [show (0.5:ℝ) * (1 - 4/100) = 0.48 by norm_num,
      round4_eq_div 4800 0.48 (by norm_num) (by norm_num)]
    norm_num
  have hhi : grid_upper_bound 0.5 4 = 0.52 := by
    unfold grid_upper_bound
    rw [show (0.5:ℝ) * (1 + 4/100) = 0.52 by norm_num,
      round4_eq_div 5200 0.52 (by norm_num) (by norm_num)]
    norm_num
  refine ⟨hlo, hhi, ?_⟩
  rw [hlo, hhi]
  unfold create_nonlinear_grid
  rw [if_neg (by norm_num : ¬ ((0.52:ℝ) - 0.48 = 0)),
    if_neg (by norm_num : ¬ (5 = 1))]
  rw [show List.range 5 = [0, 1, 2, 3, 4] from rfl]
  simp only [List.map_cons, List.map_nil, Option.some.injEq, List.cons.injEq,
    and_true]
  refine ⟨?_, ?_, ?_, ?_, ?_⟩
  · rw [show ((0:ℕ):ℝ) / (((5:ℕ):ℝ) - 1) = 0 by norm_num, nlFactor_zero,
      show (0.48:ℝ) + 0 * (0.52 - 0.48) = 0.48 by ring,
      round4_eq_div 4800 0.48 (by norm_num) (by norm_num)]
    norm_num
  · rw [show ((1:ℕ):ℝ) / (((5:ℕ):ℝ) - 1) = 1/4 by norm_num]
    have hnl : nlFactor false (1/4 : ℝ) = 1/8 := by
      rw [nlFactor, if_neg (by simp),
        show (1/4:ℝ) = (1/2)^2 by norm_num, Real.sqrt_sq (by norm_num)]
      norm_num
    rw [hnl, show (0.48:ℝ) + 1/8 * (0.52 - 0.48) = 0.485 by norm_num,
      round4_eq_div 4850 0.485 (by norm_num) (by norm_num)]
    norm_num
  · rw [show ((2:ℕ):ℝ) / (((5:ℕ):ℝ) - 1) = 1/2 by norm_num]
    have hsl : (0.7025:ℝ) ≤ Real.sqrt (1/2) := by
      rw [Real.le_sqrt (by norm_num) (by norm_num)]
      norm_num
    have hsu : Real.sqrt (1/2) < 0.7075 := by
      rw [Real.sqrt_lt' (by norm_num)]
      norm_num
    have hnl : nlFactor false (1/2 : ℝ) = 1/2 * Real.sqrt (1/2) := by
      rw [nlFactor, if_neg (by simp)]
    rw [hnl, round4_eq_div 4941 _ (by nlinarith) (by nlinarith)]
    norm_num
  · rw [show ((3:ℕ):ℝ) / (((5:ℕ):ℝ) - 1) = 3/4 by norm_num]
    have hsl : (0.865:ℝ) ≤ Real.sqrt (3/4) := by
      rw [Real.le_sqrt (by norm_num) (by norm_num)]
      norm_num
    have hsu : Real.sqrt (3/4) < 0.8683 := by
      rw [Real.sqrt_lt' (by norm_num)]
      norm_num
    have hnl : nlFactor false (3/4 : ℝ) = 3/4 * Real.sqrt (3/4) := by
      rw [nlFactor, if_neg (by simp)]
    rw [hnl, round4_eq_div 5060 _ (by nlinarith) (by nlinarith)]
    norm_num
  · rw [show ((4:ℕ):ℝ) / (((5:ℕ):ℝ) - 1) = 1 by norm_num, nlFactor_one,
      show (0.48:ℝ) + 1 * (0.52 - 0.48) = 0.52 by ring,
      round4_eq_div 5200 0.52 (by norm_num) (by norm_num)]
    norm_num

theorem procSellAux_pairing_head (sid : String) (sp now p : ℚ) (i0 : Nat)
    (tl : List Nat) (rest : List (ℚ × List Nat)) (trades : List Trade)
    (sv : ℚ) (hp : p < sp) :
    (procSellAux sid sp now ((p, i0 :: tl) :: rest) trades sv).2.2.1.head?
      = some (mkMarginRec sid sp now p (trades.getD i0 defaultTrade)
          (min (trades.getD i0 defaultTrade).volume sv)) := by
  simp only [procSellAux, if_pos hp]
  split <;> rfl

theorem mem_keys_bucketInsert {x p : ℚ} {i : Nat} :
    ∀ bs : List (ℚ × List Nat), x ∈ (bucketInsert bs p i).map (·.1) →
      x = p ∨ x ∈ bs.map (·.1)
  | [], h => by
    simp only [bucketInsert, List.map_cons, List.map_nil] at h
    exact Or.inl (List.mem_singleton.mp h)
  | (q, l) :: rest, h => by
    by_cases hq : q = p
    · simp only [bucketInsert, if_pos hq, List.map_cons] at h
      exact Or.inr h
    · simp only [bucketInsert, if_neg hq, List.map_cons] at h
      rcases List.mem_cons.mp h with he | hm
      · exact Or.inr (by simp only [List.map_cons, List.mem_cons]; exact Or.inl he)
      · rcases mem_keys_bucketInsert rest hm with h' | h'
        · exact Or.inl h'
        · exact Or.inr (by
            simp only [List.map_cons, List.mem_cons]
            exact Or.inr h')

theorem nodup_keys_bucketInsert {p : ℚ} {i : Nat} :
    ∀ bs : List (ℚ × List Nat), (bs.map (·.1)).Nodup →
      ((bucketInsert bs p i).map (·.1)).Nodup
  | [], _ => by simp [bucketInsert]
  | (q, l) :: rest, h => by
    by_cases hq : q = p
    · simpa only [bucketInsert, if_pos hq, List.map_cons] using h
    · simp only [List.map_cons, List.nodup_cons] at h
      simp only [bucketInsert, if_neg hq, List.map_cons, List.nodup_cons]
      refine ⟨?_, nodup_keys_bucketInsert rest h.2⟩
      intro hmem
      rcases mem_keys_bucketInsert rest hmem with he | hm
      · exact hq he
      · exact h.1 hm

theorem nodup_keys_foldl :
    ∀ (l : List (Nat × Trade)) (bs : List (ℚ × List Nat)),
      (bs.map (·.1)).Nodup →
      ((l.foldl (fun bs it => bucketInsert bs (it.2.price) it.1) bs).map
        (·.1)).Nodup
  | [], _, h => h
  | it :: rest, bs, h => by
    simp only [List.foldl_cons]
    exact nodup_keys_foldl rest _ (nodup_keys_bucketInsert bs h)

theorem nodup_keys_buildBuckets (trades : List Trade) :
    ((buildBuckets trades).map (·.1)).Nodup := by
  unfold buildBuckets
  exact nodup_keys_foldl _ [] (by simp)

theorem perm_insertBucket (b : ℚ × List Nat) :
    ∀ bs : List (ℚ × List Nat), (insertBucket b bs).Perm (b :: bs)
  | [] => List.Perm.refl _
  | c :: rest => by
    by_cases hc : b.1 ≤ c.1
    · simp only [insertBucket, if_pos hc]
      exact List.Perm.refl _
    · simp only [insertBucket, if_neg hc]
      exact ((perm_insertBucket b rest).cons c).trans (List.Perm.swap b c rest)

theorem perm_sortBuckets :
    ∀ bs : List (ℚ × List Nat), (sortBuckets bs).Perm bs
  | [] => List.Perm.refl _
  | b :: rest => by
    simp only [sortBuckets]
    exact (perm_insertBucket b (sortBuckets rest)).trans
      ((perm_sortBuckets rest).cons b)

theorem pairwise_le_insertBucket (b : ℚ × List Nat) :
    ∀ bs : List (ℚ × List Nat),
      bs.Pairwise (fun x y => x.1 ≤ y.1) →
      (insertBucket b bs).Pairwise (fun x y => x.1 ≤ y.1)
  | [], _ => by simp [insertBucket]
  | c :: rest, h => by
    rw [List.pairwise_cons] at h
    by_cases hc : b.1 ≤ c.1
    · simp only [insertBucket, if_pos hc]
      rw [List.pairwise_cons]
      refine ⟨?_, List.pairwise_cons.mpr h⟩
      intro x hx
      rcases List.mem_cons.mp hx with he | hm
      · rw [he]
        exact hc
      · exact le_trans hc (h.1 x hm)
    · simp only [insertBucket, if_neg hc]
      rw [List.pairwise_cons]
      refine ⟨?_, pairwise_le_insertBucket b rest h.2⟩
      intro x hx
      rcases mem_insertBucket rest hx with he | hm
      · rw [he]
        exact le_of_not_le hc
      · exact h.1 x hm

theorem pairwise_le_sortBuckets :
    ∀ bs : List (ℚ × List Nat),
      (sortBuckets bs).Pairwise (fun x y => x.1 ≤ y.1)
  | [] => List.Pairwise.nil
  | b :: rest => by
    simp only [sortBuckets]
    exact pairwise_le_insertBucket b _ (pairwise_le_sortBuckets rest)

theorem sorted_keys_lt (trades : List Trade) :
    ((sortBuckets (buildBuckets trades)).map (·.1)).Pairwise (· < ·) := by
  have hnd : ((sortBuckets (buildBuckets trades)).map (·.1)).Nodup :=
    ((perm_sortBuckets (buildBuckets trades)).map (·.1)).nodup_iff.mpr
      (nodup_keys_buildBuckets trades)
  have hle : ((sortBuckets (buildBuckets trades)).map (·.1)).Pairwise (· ≤ ·) :=
    List.pairwise_map.mpr (pairwise_le_sortBuckets (buildBuckets trades))
  have hne : ((sortBuckets (buildBuckets trades)).map (·.1)).Pairwise (· ≠ ·) :=
    hnd
  exact (hle.and hne).imp fun h => lt_of_le_of_ne h.1 h.2

theorem procSellAux_keys (sid : String) (sp now : ℚ) :
    ∀ (bkts : List (ℚ × List Nat)) (trades : List Trade) (sv : ℚ),
      (procSellAux sid sp now bkts trades sv).1.map (·.1) = bkts.map (·.1)
  | [], _, _ => rfl
  | (p, []) :: rest, trades, sv => by
    simp only [procSellAux, List.map_cons]
    rw [procSellAux_keys sid sp now rest trades sv]
  | (p, i0 :: tl) :: rest, trades, sv => by
    by_cases hp : p < sp
    · simp only [procSellAux, if_pos hp]
      split
      · simp only [List.map_cons]
      · simp only [List.map_cons]
        rw [procSellAux_keys sid sp now rest _ _]
    · simp only [procSellAux, if_neg hp, List.map_cons]
      rw [procSellAux_keys sid sp now rest trades sv]

/-- C1 (amended): (i) every emitted MarginRecord pairs a sell only with a
buy whose price is strictly below the sell price; (ii) at an eligible
non-empty price bucket, the pairing consumes the bucket-head buy by exactly
`min(buyRemaining, sellRemaining)` (the head of the emitted records is
`mkMarginRec` of the head buy with that volume); (iii) per sell, the
emitted buy prices form a sublist of the bucket price list (at most one
buy record per price level), the matching preserves the bucket price list,
and a strictly ascending bucket price list yields strictly ascending
emitted buy prices (cheapest eligible bucket first); (iv) the bucket price
list `calculate_margins` actually builds — `sortBuckets (buildBuckets …)`
— is strictly ascending for every ledger, so by (iii) this holds at every
sell of the run; matching for a sell may therefore stop with sell volume
unmatched even though an eligible buy record retains volume. -/
theorem c1_margin_matching_amended :
    (∀ (now : ℚ) (trades : List Trade),
      ∀ m ∈ (calculate_margins now trades).2, m.buy_price < m.sell_price) ∧
    (∀ (sid : String) (sp now p sv : ℚ) (i0 : Nat) (tl : List Nat)
        (rest : List (ℚ × List Nat)) (trades : List Trade), p < sp →
      (procSellAux sid sp now ((p, i0 :: tl) :: rest) trades sv).2.2.1.head?
        = some (mkMarginRec sid sp now p (trades.getD i0 defaultTrade)
            (min (trades.getD i0 defaultTrade).volume sv))) ∧
    (∀ (sid : String) (sp now sv : ℚ) (bkts : List (ℚ × List Nat))
        (trades : List Trade),
      ((procSellAux sid sp now bkts trades sv).2.2.1.map
          (·.buy_price)).Sublist (bkts.map (·.1)) ∧
      (procSellAux sid sp now bkts trades sv).1.map (·.1) = bkts.map (·.1) ∧
      (List.Pairwise (· < ·) (bkts.map (·.1)) →
        List.Pairwise (· < ·)
          ((procSellAux sid sp now bkts trades sv).2.2.1.map
            (·.buy_price)))) ∧
    (∀ trades : List Trade,
      ((sortBuckets (buildBuckets trades)).map (·.1)).Pairwise (· < ·)) := by
  refine ⟨fun now trades m hm => (calculate_margins_mem now trades m hm).1,
    fun sid sp now p sv i0 tl rest trades hp =>
      procSellAux_pairing_head sid sp now p i0 tl rest trades sv hp,
    fun sid sp now sv bkts trades =>
      ⟨procSellAux_buyPrices_sublist sid sp now bkts trades sv,
       procSellAux_keys sid sp now bkts trades sv,
       fun hpw => hpw.sublist
         (procSellAux_buyPrices_sublist sid sp now bkts trades sv)⟩,
    sorted_keys_lt⟩

/-- Witness for the amended C1: Scenario B's record pairs the sell at 0.52
with the strictly cheaper buy at 0.48; the eligible-bucket pairing for that
ledger's bucket consumes the head buy by min(10, 10); and for a strictly
ascending bucket list the emitted buy prices are strictly ascending. -/
theorem c1_margin_matching_amended_witness :
    marginB ∈ (calculate_margins 0 scenarioB).2 ∧
    marginB.buy_price < marginB.sell_price ∧
    ((48:ℚ)/100 < 52/100 ∧
      (procSellAux "s" (52/100) 0 [((48:ℚ)/100, [0])] scenarioB 10).2.2.1.head?
        = some (mkMarginRec "s" (52/100) 0 (48/100)
            (scenarioB.getD 0 defaultTrade)
            (min (scenarioB.getD 0 defaultTrade).volume 10))) ∧
    List.Pairwise (· < ·) (([((48:ℚ)/100, [0]), (49/100, [1])].map (·.1))) ∧
    List.Pairwise (· < ·)
      ((procSellAux "s" (52/100) 0 [((48:ℚ)/100, [0]), (49/100, [1])]
          scenarioB 10).2.2.1.map (·.buy_price)) := by
  have hmem : marginB ∈ (calculate_margins 0 scenarioB).2 := by
    norm_num [calculate_margins, calcMarginsLoop, procSellAux, buildBuckets,
      sortBuckets, insertBucket, bucketInsert, exTrade, scenarioB, isFilledBuy,
      mkMarginRec, defaultTrade, marginB, List.range_succ, min_def]
  have hp : (48:ℚ)/100 < 52/100 := by norm_num
  have hpw : List.Pairwise (· < ·)
      (([((48:ℚ)/100, [0]), (49/100, [1])].map (·.1))) := by norm_num
  exact ⟨hmem, c1_margin_matching_amended.1 0 scenarioB marginB hmem,
    ⟨hp, c1_margin_matching_amended.2.1 "s" (52/100) 0 (48/100) 10 0 [] []
      scenarioB hp⟩,
    hpw,
    (c1_margin_matching_amended.2.2.1 "s" (52/100) 0 10
      [((48:ℚ)/100, [0]), (49/100, [1])] scenarioB).2.2 hpw⟩
